import Mathlib

/-!
Verification of the channels-console event collector, stats store and
label/serialization logic (crates/channels-console/src/lib.rs).

Rust strings are modelled as `List Char` (Rust `str` comparison is
byte-wise lexicographic on UTF-8, which coincides with code-point
lexicographic order, i.e. lexicographic on `Char.toNat`).  Rust `u64`
and `usize` counters are modelled as `Nat`; the source's
`saturating_sub` is Lean's truncated `Nat` subtraction.  `VecDeque` is
modelled as a `List` with the front at the head: `pop_front` is
`List.tail`, `push_back` appends at the end.  The collector's
`HashMap<u64, ChannelStats>` is modelled as an association list with
first-match lookup and insert-or-replace semantics.
-/

namespace ChannelsConsole

/-- Rust strings, modelled as lists of characters. -/
abbrev Str := List Char

/-- Lexicographic comparison on code points, as Rust's `str::cmp`. -/
def charCmp (a b : Char) : Ordering := compare a.toNat b.toNat

/-- Lexicographic string comparison, as Rust's `str::cmp`. -/
def strCmp : Str → Str → Ordering
  | [], [] => .eq
  | [], _ :: _ => .lt
  | _ :: _, [] => .gt
  | a :: as, b :: bs => (charCmp a b).then (strCmp as bs)

/-- True iff the character is an ASCII decimal digit, as used by Rust's
integer `FromStr`. -/
def isDigit (c : Char) : Bool := 48 ≤ c.toNat && c.toNat ≤ 57

/-- Numeric value of an ASCII digit character. -/
def digVal (c : Char) : Nat := c.toNat - 48

/-- Accumulate a decimal numeral (no sign): `None` on an empty string or
any non-digit character, as Rust's integer `FromStr` after sign removal. -/
def parseDigits (s : Str) : Option Nat :=
  if s ≠ [] ∧ s.all isDigit then
    some (s.foldl (fun acc c => 10 * acc + digVal c) 0)
  else none

/-- Rust's `str::parse::<u64>()` (also `usize` on 64-bit targets): an
optional leading plus sign, then one or more decimal digits, rejecting
values that do not fit in 64 bits. -/
def parseU64 (s : Str) : Option Nat :=
  let t := if s.head? = some '+' then s.tail else s
  match parseDigits t with
  | some v => if v < 2 ^ 64 then some v else none
  | none => none

/-- Digit character for a value below ten (`format!` decimal output). -/
def digitChar (d : Nat) : Char :=
  match d with
  | 0 => '0' | 1 => '1' | 2 => '2' | 3 => '3' | 4 => '4'
  | 5 => '5' | 6 => '6' | 7 => '7' | 8 => '8' | _ => '9'

/-- Digit expansion with explicit fuel (any fuel at least `n` is exact):
renders `n` in decimal, most-significant digit first, empty for zero. -/
def decimalAux (fuel n : Nat) : Str :=
  match fuel with
  | 0 => []
  | fuel + 1 =>
    if n = 0 then [] else decimalAux fuel (n / 10) ++ [digitChar (n % 10)]

/-- Decimal rendering of a natural number, as Rust's `Display` for
unsigned integers: most-significant digit first, `"0"` for zero. -/
def natDecimal (n : Nat) : Str :=
  if n = 0 then ['0'] else decimalAux n n

/-- Rust `ChannelType` (lib.rs): bounded with capacity, unbounded, oneshot. -/
inductive ChannelType where
  | Bounded (cap : Nat)
  | Unbounded
  | Oneshot
deriving DecidableEq, Repr

/-- Rust `ChannelState` (lib.rs). -/
inductive ChannelState where
  | Active
  | Closed
  | Full
  | Notified
deriving DecidableEq, Repr

/-- `Display for ChannelType`, which is also its `Serialize` output:
`"bounded[N]"`, `"unbounded"`, `"oneshot"`. -/
def serializeChannelType : ChannelType → Str
  | .Bounded cap => "bounded[".data ++ natDecimal cap ++ "]".data
  | .Unbounded => "unbounded".data
  | .Oneshot => "oneshot".data

/-- Rust `str::strip_prefix`. -/
def stripPre (p s : Str) : Option Str :=
  if s.take p.length = p then some (s.drop p.length) else none

/-- Rust `str::strip_suffix`. -/
def stripSuf (p s : Str) : Option Str :=
  if p.length ≤ s.length ∧ s.drop (s.length - p.length) = p then
    some (s.take (s.length - p.length))
  else none

/-- `Deserialize for ChannelType` (lib.rs): `"unbounded"`, `"oneshot"`,
or `"bounded[N]"` with `N` parsed as an unsigned integer; anything else
is an error (`none`). -/
def deserializeChannelType (s : Str) : Option ChannelType :=
  if s = "unbounded".data then some .Unbounded
  else if s = "oneshot".data then some .Oneshot
  else
    match stripPre "bounded[".data s with
    | some rest =>
      match stripSuf "]".data rest with
      | some inner =>
        match parseU64 inner with
        | some cap => some (.Bounded cap)
        | none => none
      | none => none
    | none => none

/-- Rust `LogEntry` (lib.rs).  The timestamp is nanoseconds since the
process-wide epoch; it is opaque to every property proved here, so it is
carried through as a plain number. -/
structure LogEntry where
  index : Nat
  timestamp : Nat
  message : Option Str
deriving DecidableEq, Repr

/-- Rust `ChannelStats` (lib.rs).  `VecDeque` log queues are lists with
the oldest entry at the head. -/
structure ChannelStats where
  id : Nat
  source : Str
  label : Option Str
  channel_type : ChannelType
  state : ChannelState
  sent_count : Nat
  received_count : Nat
  type_name : Str
  type_size : Nat
  sent_logs : List LogEntry
  received_logs : List LogEntry
  iter : Nat
deriving DecidableEq, Repr

/-- `ChannelStats::queued` (lib.rs): `sent_count.saturating_sub(received_count)
.saturating_sub(1)`; `Nat` subtraction is exactly saturating subtraction. -/
def ChannelStats.queued (cs : ChannelStats) : Nat :=
  cs.sent_count - cs.received_count - 1

/-- `ChannelStats::total_bytes` (lib.rs). -/
def ChannelStats.total_bytes (cs : ChannelStats) : Nat :=
  cs.sent_count * cs.type_size

/-- `ChannelStats::queued_bytes` (lib.rs). -/
def ChannelStats.queued_bytes (cs : ChannelStats) : Nat :=
  cs.queued * cs.type_size

/-- `ChannelStats::new` (lib.rs): zero counters, default (`Active`)
state, empty log queues. -/
def ChannelStats.new (id : Nat) (source : Str) (label : Option Str)
    (channel_type : ChannelType) (type_name : Str) (type_size : Nat)
    (iter : Nat) : ChannelStats :=
  { id := id, source := source, label := label,
    channel_type := channel_type, state := .Active,
    sent_count := 0, received_count := 0,
    type_name := type_name, type_size := type_size,
    sent_logs := [], received_logs := [], iter := iter }

/-- `ChannelStats::update_state` (lib.rs): no-op in `Closed`/`Notified`,
otherwise `Full` iff the queued count meets the capacity (`Bounded`) or
is at least one (`Oneshot`), else `Active`. -/
def ChannelStats.update_state (cs : ChannelStats) : ChannelStats :=
  if cs.state = .Closed ∨ cs.state = .Notified then cs
  else
    let q := cs.queued
    let is_full : Bool :=
      match cs.channel_type with
      | .Bounded cap => decide (q ≥ cap)
      | .Oneshot => decide (q ≥ 1)
      | .Unbounded => false
    if is_full then { cs with state := .Full } else { cs with state := .Active }

/-- `extract_filename` (lib.rs): split the path on `/`; with at least
two components keep the last two joined by `/`, otherwise the path
itself. -/
def extract_filename (path : Str) : Str :=
  let components := path.splitOn '/'
  if components.length ≥ 2 then
    components.getD (components.length - 2) [] ++
      '/' :: components.getD (components.length - 1) []
  else path

/-- Rust `str::rfind` for a single character: the index of its last
occurrence. -/
def rfindChar (c : Char) : Str → Option Nat
  | [] => none
  | x :: xs =>
    match rfindChar c xs with
    | some i => some (i + 1)
    | none => if x = c then some 0 else none

/-- `resolve_label` (lib.rs): a user label is used verbatim as the base;
otherwise the source is split at its last colon and the base is
`extract_filename(path) ++ ":" ++ line` (or `extract_filename(source)`
when there is no colon).  If `iter > 0`, `"-{iter+1}"` is appended. -/
def resolve_label (id : Str) (provided : Option Str) (iter : Nat) : Str :=
  let base :=
    match provided with
    | some l => l
    | none =>
      match rfindChar ':' id with
      | some pos => extract_filename (id.take pos) ++ ':' :: id.drop (pos + 1)
      | none => extract_filename id
  if iter > 0 then base ++ '-' :: natDecimal (iter + 1) else base

/-- Rust `SerializableChannelStats` (lib.rs). -/
structure SerializableChannelStats where
  id : Nat
  source : Str
  label : Str
  has_custom_label : Bool
  channel_type : ChannelType
  state : ChannelState
  sent_count : Nat
  received_count : Nat
  queued : Nat
  type_name : Str
  type_size : Nat
  total_bytes : Nat
  queued_bytes : Nat
  iter : Nat
deriving DecidableEq, Repr

/-- `impl From<&ChannelStats> for SerializableChannelStats` (lib.rs). -/
def toSerializable (cs : ChannelStats) : SerializableChannelStats :=
  { id := cs.id, source := cs.source,
    label := resolve_label cs.source cs.label cs.iter,
    has_custom_label := cs.label.isSome,
    channel_type := cs.channel_type, state := cs.state,
    sent_count := cs.sent_count, received_count := cs.received_count,
    queued := cs.queued, type_name := cs.type_name,
    type_size := cs.type_size, total_bytes := cs.total_bytes,
    queued_bytes := cs.queued_bytes, iter := cs.iter }

/-- Rust `StatsEvent` (lib.rs); timestamps are opaque numbers. -/
inductive StatsEvent where
  | Created (id : Nat) (source : Str) (display_label : Option Str)
      (channel_type : ChannelType) (type_name : Str) (type_size : Nat)
  | MessageSent (id : Nat) (log : Option Str) (timestamp : Nat)
  | MessageReceived (id : Nat) (timestamp : Nat)
  | Closed (id : Nat)
  | Notified (id : Nat)
deriving DecidableEq, Repr

/-- The collector's `HashMap<u64, ChannelStats>`, as an association
list (keys are unique in every reachable state; the operations below
have HashMap semantics regardless). -/
abbrev StatsMap := List (Nat × ChannelStats)

/-- `HashMap::get`: first-match lookup. -/
def lookupStats (m : StatsMap) (id : Nat) : Option ChannelStats :=
  match m with
  | [] => none
  | (k, v) :: rest => if k = id then some v else lookupStats rest id

/-- `HashMap::insert`: replace the entry if the key is present,
otherwise append a new entry. -/
def insertStats (m : StatsMap) (id : Nat) (cs : ChannelStats) : StatsMap :=
  match m with
  | [] => [(id, cs)]
  | (k, v) :: rest =>
    if k = id then (id, cs) :: rest else (k, v) :: insertStats rest id cs

/-- `HashMap::get_mut` followed by an in-place update: apply `f` to the
entry with the given key, leave everything else (and a map without the
key) unchanged. -/
def updateStats (m : StatsMap) (id : Nat) (f : ChannelStats → ChannelStats) :
    StatsMap :=
  match m with
  | [] => []
  | (k, v) :: rest =>
    if k = id then (k, f v) :: updateStats rest id f
    else (k, v) :: updateStats rest id f

/-- `HashMap::values` (in iteration order of the model). -/
def valuesOf (m : StatsMap) : List ChannelStats := m.map Prod.snd

/-- `get_log_limit` (lib.rs): the `CHANNELS_CONSOLE_LOG_LIMIT`
environment variable parsed as `usize`, defaulting to 50. -/
def getLogLimit (env : Option Str) : Nat :=
  match env with
  | none => 50
  | some s => (parseU64 s).getD 50

/-- The log-queue update on a send/receive event (lib.rs): if the queue
has reached the limit, pop the front, then push the new entry at the
back. -/
def pushLog (limit : Nat) (logs : List LogEntry) (e : LogEntry) :
    List LogEntry :=
  (if logs.length ≥ limit then logs.tail else logs) ++ [e]

/-- The `MessageSent` body of the collector loop (lib.rs): increment
`sent_count`, recompute the state, then log an entry whose index is the
new `sent_count`. -/
def handleSent (limit : Nat) (log : Option Str) (ts : Nat)
    (cs : ChannelStats) : ChannelStats :=
  let cs1 := ChannelStats.update_state { cs with sent_count := cs.sent_count + 1 }
  { cs1 with sent_logs := pushLog limit cs1.sent_logs ⟨cs1.sent_count, ts, log⟩ }

/-- The `MessageReceived` body of the collector loop (lib.rs). -/
def handleReceived (limit : Nat) (ts : Nat) (cs : ChannelStats) :
    ChannelStats :=
  let cs1 := ChannelStats.update_state
    { cs with received_count := cs.received_count + 1 }
  { cs1 with
    received_logs := pushLog limit cs1.received_logs ⟨cs1.received_count, ts, none⟩ }

/-- One iteration of the collector thread's event loop (lib.rs,
`init_stats_state`): `Created` inserts a fresh record whose `iter` is
the count of existing records with the same source; the other events
update the record with the matching id, if any. -/
def applyEvent (limit : Nat) (m : StatsMap) (e : StatsEvent) : StatsMap :=
  match e with
  | .Created id source lbl ty tn tsz =>
    let iter := (valuesOf m).countP (fun cs => cs.source == source)
    insertStats m id (ChannelStats.new id source lbl ty tn tsz iter)
  | .MessageSent id log ts => updateStats m id (handleSent limit log ts)
  | .MessageReceived id ts => updateStats m id (handleReceived limit ts)
  | .Closed id => updateStats m id (fun cs => { cs with state := .Closed })
  | .Notified id => updateStats m id (fun cs => { cs with state := .Notified })

/-- The collector applied to a whole event sequence, in order. -/
def applyEvents (limit : Nat) (m : StatsMap) (evs : List StatsEvent) :
    StatsMap :=
  evs.foldl (applyEvent limit) m

/-- `compare_channel_stats` (lib.rs): custom labels first (by label then
iter), then auto-labeled records (by source then iter). -/
def compare_channel_stats (a b : ChannelStats) : Ordering :=
  match a.label, b.label with
  | some la, some lb => (strCmp la lb).then (compare a.iter b.iter)
  | some _, none => .lt
  | none, some _ => .gt
  | none, none => (strCmp a.source b.source).then (compare a.iter b.iter)

/-- The non-strict Boolean order induced by `compare_channel_stats`,
matching what `Vec::sort_by` guarantees about its output. -/
def statsLe (a b : ChannelStats) : Bool := compare_channel_stats a b ≠ .gt

/-- `get_sorted_channel_stats` (lib.rs) on a given list of records (the
HashMap's value iteration order is unspecified, so the input order is
universally quantified). -/
def sortChannelStats (l : List ChannelStats) : List ChannelStats :=
  l.mergeSort statsLe

/-- Rust `ChannelLogs` (lib.rs). -/
structure ChannelLogs where
  id : Str
  sent_logs : List LogEntry
  received_logs : List LogEntry
deriving DecidableEq, Repr

/-- The descending-by-index order used by `get_channel_logs` via
`sort_by(|a, b| b.index.cmp(&a.index))`. -/
def logDesc (a b : LogEntry) : Bool := b.index ≤ a.index

/-- `get_channel_logs` (lib.rs): parse the id string as `u64`, look the
channel up, and return its log queues sorted most-recent-first. -/
def get_channel_logs (channel_id : Str) (m : StatsMap) : Option ChannelLogs :=
  match parseU64 channel_id with
  | none => none
  | some id =>
    match lookupStats m id with
    | none => none
    | some cs =>
      some { id := channel_id,
             sent_logs := cs.sent_logs.mergeSort logDesc,
             received_logs := cs.received_logs.mergeSort logDesc }

/-- Modelled from the spec: the HTTP route for `GET /logs/{id}`
(`http_api.rs`, which is not among the sources) returns 404 when
`get_channel_logs` misses and 200 with the JSON body on a hit. -/
def logsHttpStatus (r : Option ChannelLogs) : Nat :=
  match r with
  | none => 404
  | some _ => 200

/-- The id an event refers to. -/
def eventId : StatsEvent → Nat
  | .Created i _ _ _ _ _ => i
  | .MessageSent i _ _ => i
  | .MessageReceived i _ => i
  | .Closed i => i
  | .Notified i => i

/-- True iff the event is a `Created` event for the given id. -/
def createdFor (id : Nat) : StatsEvent → Bool
  | .Created i _ _ _ _ _ => i == id
  | _ => false

/-- Number of records whose source matches, as computed by the
`Created` handler. -/
def countSource (m : StatsMap) (s : Str) : Nat :=
  (valuesOf m).countP (fun cs => cs.source == s)

section MapLemmas

lemma lookupStats_updateStats (m : StatsMap) (j : Nat)
    (f : ChannelStats → ChannelStats) (i : Nat) :
    lookupStats (updateStats m j f) i =
      if i = j then (lookupStats m i).map f else lookupStats m i := by
  induction m with
  | nil => simp [lookupStats, updateStats]
  | cons p rest ih =>
    obtain ⟨k, v⟩ := p
    by_cases hk : k = j
    · subst hk
      by_cases hik : k = i
      · subst hik
        simp [updateStats, lookupStats]
      · have hij : ¬ i = k := fun hc => hik hc.symm
        simp [updateStats, lookupStats, hik, hij, ih]
    · by_cases hik : k = i
      · subst hik
        simp [updateStats, lookupStats, hk]
      · simp [updateStats, lookupStats, hk, hik, ih]

lemma lookupStats_insertStats (m : StatsMap) (j : Nat) (v : ChannelStats)
    (i : Nat) :
    lookupStats (insertStats m j v) i =
      if i = j then some v else lookupStats m i := by
  induction m with
  | nil =>
    by_cases h : i = j
    · subst h
      simp [lookupStats, insertStats]
    · have h' : ¬ j = i := fun hc => h hc.symm
      simp [lookupStats, insertStats, h, h']
  | cons p rest ih =>
    obtain ⟨k, w⟩ := p
    by_cases hk : k = j
    · subst hk
      by_cases hik : k = i
      · subst hik
        simp [insertStats, lookupStats]
      · have hij : ¬ i = k := fun hc => hik hc.symm
        simp [insertStats, lookupStats, hik, hij]
    · by_cases hik : k = i
      · rw [hik] at hk ⊢
        simp [insertStats, lookupStats, hk]
      · simp [insertStats, lookupStats, hk, hik, ih]

lemma lookupStats_eq_none_iff (m : StatsMap) (i : Nat) :
    lookupStats m i = none ↔ ∀ p ∈ m, p.1 ≠ i := by
  induction m with
  | nil => simp [lookupStats]
  | cons p rest ih =>
    obtain ⟨k, v⟩ := p
    by_cases h : k = i <;> simp [lookupStats, h, ih]

lemma insertStats_of_fresh (m : StatsMap) (j : Nat) (v : ChannelStats)
    (h : lookupStats m j = none) : insertStats m j v = m ++ [(j, v)] := by
  induction m with
  | nil => simp [insertStats]
  | cons p rest ih =>
    obtain ⟨k, w⟩ := p
    simp only [lookupStats] at h
    by_cases hk : k = j
    · simp [hk] at h
    · simp [hk] at h
      simp [insertStats, hk, ih h]

lemma countSource_append (m m' : StatsMap) (s : Str) :
    countSource (m ++ m') s = countSource m s + countSource m' s := by
  simp [countSource, valuesOf, List.countP_append]

lemma updateStats_of_absent (m : StatsMap) (j : Nat)
    (f : ChannelStats → ChannelStats) (h : lookupStats m j = none) :
    updateStats m j f = m := by
  induction m with
  | nil => rfl
  | cons p rest ih =>
    obtain ⟨k, v⟩ := p
    simp only [lookupStats] at h
    by_cases hk : k = j
    · simp [hk] at h
    · simp [hk] at h
      simp [updateStats, hk, ih h]

lemma lookupStats_applyEvent_ne (limit : Nat) (m : StatsMap)
    (e : StatsEvent) (k : Nat) (h : eventId e ≠ k) :
    lookupStats (applyEvent limit m e) k = lookupStats m k := by
  have h' : ¬ k = eventId e := fun hc => h hc.symm
  cases e <;>
    simp only [applyEvent, eventId] at h' ⊢ <;>
    first
      | rw [lookupStats_insertStats]; simp [h']
      | rw [lookupStats_updateStats]; simp [h']

lemma lookupStats_applyEvents_ne (limit : Nat) (evs : List StatsEvent)
    (m : StatsMap) (k : Nat) (h : ∀ e ∈ evs, eventId e ≠ k) :
    lookupStats (applyEvents limit m evs) k = lookupStats m k := by
  induction evs generalizing m with
  | nil => rfl
  | cons e rest ih =>
    have h1 : eventId e ≠ k := h e (by simp)
    have h2 : ∀ x ∈ rest, eventId x ≠ k := fun x hx => h x (by simp [hx])
    show lookupStats (applyEvents limit (applyEvent limit m e) rest) k = _
    rw [ih (applyEvent limit m e) h2,
      lookupStats_applyEvent_ne limit m e k h1]

end MapLemmas

/-- The state recomputation algorithm exactly as the spec states it
(§4.3.4): return the old state when it is `Closed` or `Notified`,
otherwise `Full` iff `queued = sent − received − 1` meets the bounded
capacity or is at least one for a oneshot, else `Active` (`queued` is
the saturating/truncated subtraction, as everywhere in the spec). -/
def specRecomputedState (st : ChannelState) (ty : ChannelType)
    (sent received : Nat) : ChannelState :=
  if st = .Closed ∨ st = .Notified then st
  else
    let q := sent - received - 1
    let is_full : Bool :=
      match ty with
      | .Bounded cap => decide (q ≥ cap)
      | .Oneshot => decide (q ≥ 1)
      | .Unbounded => false
    if is_full then .Full else .Active

section StateLemmas

lemma update_state_eq (cs : ChannelStats) :
    cs.update_state =
      { cs with state := (specRecomputedState cs.state cs.channel_type
          cs.sent_count cs.received_count) } := by
  unfold ChannelStats.update_state specRecomputedState ChannelStats.queued
  split
  · rfl
  · dsimp only
    split <;> rfl

lemma handleSent_spec (limit : Nat) (log : Option Str) (ts : Nat)
    (cs : ChannelStats) :
    handleSent limit log ts cs =
      { cs with
        sent_count := cs.sent_count + 1,
        state := specRecomputedState cs.state cs.channel_type
          (cs.sent_count + 1) cs.received_count,
        sent_logs := pushLog limit cs.sent_logs
          ⟨cs.sent_count + 1, ts, log⟩ } := by
  unfold handleSent
  rw [update_state_eq]

lemma handleReceived_spec (limit : Nat) (ts : Nat) (cs : ChannelStats) :
    handleReceived limit ts cs =
      { cs with
        received_count := cs.received_count + 1,
        state := specRecomputedState cs.state cs.channel_type
          cs.sent_count (cs.received_count + 1),
        received_logs := pushLog limit cs.received_logs
          ⟨cs.received_count + 1, ts, none⟩ } := by
  unfold handleReceived
  rw [update_state_eq]

end StateLemmas

/-- C1 counterexample: run the collector from an empty map on
`[Created 0, Notified 0, Closed 0]`.  After `Notified` the record's
state is `Notified`; processing the subsequent `Closed` event changes
it to `Closed`, so a `Closed` event processed after the record reached
`Notified` does not leave the state `Notified`. -/
theorem closed_after_notified_changes_state :
    (lookupStats
      (applyEvents 50 []
        [.Created 0 ['s'] none .Oneshot ['T'] 4, .Notified 0]) 0).map
      ChannelStats.state = some .Notified
    ∧ (lookupStats
      (applyEvents 50 []
        [.Created 0 ['s'] none .Oneshot ['T'] 4, .Notified 0, .Closed 0]) 0).map
      ChannelStats.state = some .Closed := by
  constructor <;> decide

/-- C1 (amended): once a record's state is `Closed` or `Notified`,
processing `MessageSent` or `MessageReceived` events leaves the state
unchanged; however a `Closed` event always sets the state to `Closed`
and a `Notified` event always sets it to `Notified`, regardless of the
previous state (so a `Closed` processed after `Notified` overwrites it,
and vice versa). -/
theorem terminal_state_stickiness (limit : Nat) (m : StatsMap) (id : Nat)
    (cs : ChannelStats) (h : lookupStats m id = some cs)
    (hterm : cs.state = .Closed ∨ cs.state = .Notified) :
    (∀ log ts,
      (lookupStats (applyEvent limit m (.MessageSent id log ts)) id).map
        ChannelStats.state = some cs.state)
    ∧ (∀ ts,
      (lookupStats (applyEvent limit m (.MessageReceived id ts)) id).map
        ChannelStats.state = some cs.state)
    ∧ (lookupStats (applyEvent limit m (.Closed id)) id).map
        ChannelStats.state = some .Closed
    ∧ (lookupStats (applyEvent limit m (.Notified id)) id).map
        ChannelStats.state = some .Notified := by
  have hs : specRecomputedState cs.state cs.channel_type (cs.sent_count + 1)
      cs.received_count = cs.state := by
    unfold specRecomputedState
    rw [if_pos hterm]
  have hr : specRecomputedState cs.state cs.channel_type cs.sent_count
      (cs.received_count + 1) = cs.state := by
    unfold specRecomputedState
    rw [if_pos hterm]
  refine ⟨fun log ts => ?_, fun ts => ?_, ?_, ?_⟩ <;>
    simp only [applyEvent, lookupStats_updateStats, eq_self_iff_true,
      if_true, h, Option.map_some]
  · simp [handleSent_spec, hs]
  · simp [handleReceived_spec, hr]
  · rfl
  · rfl

/-- C1 witness: the amended theorem applied to a concrete one-element
map whose record is `Notified`. -/
theorem terminal_state_stickiness_witness :
    (lookupStats
      (applyEvent 50
        (applyEvents 50 [] [.Created 0 ['s'] none .Oneshot ['T'] 4, .Notified 0])
        (.Closed 0)) 0).map ChannelStats.state = some .Closed := by
  have h : lookupStats
      (applyEvents 50 [] [.Created 0 ['s'] none .Oneshot ['T'] 4, .Notified 0]) 0
      = some { ChannelStats.new 0 ['s'] none .Oneshot ['T'] 4 0 with
          state := .Notified } := by decide
  exact (terminal_state_stickiness 50 _ 0 _ h (Or.inr (by decide))).2.2.1

/-- C2: processing `MessageSent` (resp. `MessageReceived`) for a known
id increments `sent_count` (resp. `received_count`) and recomputes the
state exactly as the spec's algorithm `specRecomputedState`; that
algorithm leaves `Closed`/`Notified` unchanged, and otherwise yields
`Full` iff (`Bounded c` and `queued ≥ c`) or (`Oneshot` and
`queued ≥ 1`) with `queued = sent − received − 1` (truncated), `Active`
otherwise — in particular an `Unbounded` channel is never `Full`. -/
theorem state_recomputation (limit : Nat) (m : StatsMap) (id : Nat)
    (cs : ChannelStats) (log : Option Str) (ts : Nat)
    (h : lookupStats m id = some cs) :
    (∃ cs', lookupStats (applyEvent limit m (.MessageSent id log ts)) id
        = some cs'
      ∧ cs'.sent_count = cs.sent_count + 1
      ∧ cs'.received_count = cs.received_count
      ∧ cs'.state = specRecomputedState cs.state cs.channel_type
          (cs.sent_count + 1) cs.received_count)
    ∧ (∃ cs', lookupStats (applyEvent limit m (.MessageReceived id ts)) id
        = some cs'
      ∧ cs'.received_count = cs.received_count + 1
      ∧ cs'.sent_count = cs.sent_count
      ∧ cs'.state = specRecomputedState cs.state cs.channel_type
          cs.sent_count (cs.received_count + 1))
    ∧ (∀ st ty s r,
        ((st = .Closed ∨ st = .Notified) →
          specRecomputedState st ty s r = st)
        ∧ (¬(st = .Closed ∨ st = .Notified) →
            (specRecomputedState st ty s r = .Full ↔
              (∃ c, ty = .Bounded c ∧ s - r - 1 ≥ c)
              ∨ (ty = .Oneshot ∧ s - r - 1 ≥ 1))
            ∧ (specRecomputedState st ty s r ≠ .Full →
                specRecomputedState st ty s r = .Active)
            ∧ (ty = .Unbounded →
                specRecomputedState st ty s r = .Active))) := by
  refine ⟨⟨handleSent limit log ts cs, ?_, ?_, ?_, ?_⟩,
    ⟨handleReceived limit ts cs, ?_, ?_, ?_, ?_⟩, ?_⟩
  · simp [applyEvent, lookupStats_updateStats, h]
  · simp [handleSent_spec]
  · simp [handleSent_spec]
  · simp [handleSent_spec]
  · simp [applyEvent, lookupStats_updateStats, h]
  · simp [handleReceived_spec]
  · simp [handleReceived_spec]
  · simp [handleReceived_spec]
  · intro st ty s r
    constructor
    · intro hst
      unfold specRecomputedState
      rw [if_pos hst]
    · intro hst
      unfold specRecomputedState
      rw [if_neg hst]
      dsimp only
      cases ty with
      | Bounded c =>
        by_cases hq : s - r - 1 ≥ c <;> simp [hq]
      | Unbounded => simp
      | Oneshot =>
        by_cases hq : s - r - 1 ≥ 1 <;> simp [hq]

/-- C2 witness: a bounded-capacity-2 record with zero counters
processing its first `MessageSent`. -/
theorem state_recomputation_witness :
    ∃ cs', lookupStats
        (applyEvent 50 [(0, ChannelStats.new 0 ['s'] none (.Bounded 2) ['T'] 4 0)]
          (.MessageSent 0 none 7)) 0 = some cs'
      ∧ cs'.sent_count = 1
      ∧ cs'.received_count = 0
      ∧ cs'.state = specRecomputedState .Active (.Bounded 2) 1 0 :=
  (state_recomputation 50
    [(0, ChannelStats.new 0 ['s'] none (.Bounded 2) ['T'] 4 0)] 0
    (ChannelStats.new 0 ['s'] none (.Bounded 2) ['T'] 4 0) none 7 (by decide)).1

/-- C3: `queued()` is the saturating `sent_count − received_count − 1`
(stated over the integers with an explicit `max 0`), `total_bytes()` is
`sent_count × type_size`, `queued_bytes()` is `queued × type_size`, and
the `From` conversion places exactly these computed values into the
`queued`, `total_bytes` and `queued_bytes` fields of
`SerializableChannelStats`. -/
theorem derived_quantities (cs : ChannelStats) :
    ((cs.queued : Int)
      = max 0 ((cs.sent_count : Int) - (cs.received_count : Int) - 1))
    ∧ cs.total_bytes = cs.sent_count * cs.type_size
    ∧ cs.queued_bytes = cs.queued * cs.type_size
    ∧ (toSerializable cs).queued = cs.queued
    ∧ (toSerializable cs).total_bytes = cs.total_bytes
    ∧ (toSerializable cs).queued_bytes = cs.queued_bytes := by
  refine ⟨?_, rfl, rfl, rfl, rfl, rfl⟩
  unfold ChannelStats.queued
  omega

section ApplySomeLemmas

lemma lookupStats_applyEvent_isSome (limit : Nat) (m : StatsMap)
    (e : StatsEvent) (id : Nat) :
    (lookupStats (applyEvent limit m e) id).isSome
      ↔ (lookupStats m id).isSome ∨ createdFor id e = true := by
  cases e with
  | Created i s l ty tn tsz =>
    simp only [applyEvent, lookupStats_insertStats, createdFor, beq_iff_eq]
    by_cases hid : id = i <;> simp [hid]
    exact fun hc => absurd hc.symm hid
  | MessageSent i log ts =>
    simp only [applyEvent, lookupStats_updateStats, createdFor]
    by_cases hid : id = i <;> simp [hid]
  | MessageReceived i ts =>
    simp only [applyEvent, lookupStats_updateStats, createdFor]
    by_cases hid : id = i <;> simp [hid]
  | Closed i =>
    simp only [applyEvent, lookupStats_updateStats, createdFor]
    by_cases hid : id = i <;> simp [hid]
  | Notified i =>
    simp only [applyEvent, lookupStats_updateStats, createdFor]
    by_cases hid : id = i <;> simp [hid]

lemma lookupStats_applyEvents_isSome (limit : Nat) (evs : List StatsEvent)
    (m : StatsMap) (id : Nat) :
    (lookupStats (applyEvents limit m evs) id).isSome
      ↔ (lookupStats m id).isSome ∨ ∃ e ∈ evs, createdFor id e = true := by
  induction evs generalizing m with
  | nil => simp [applyEvents]
  | cons e rest ih =>
    show (lookupStats (applyEvents limit (applyEvent limit m e) rest) id).isSome ↔ _
    rw [ih, lookupStats_applyEvent_isSome]
    simp only [List.mem_cons]
    constructor
    · rintro ((hm | he) | ⟨x, hx, hcx⟩)
      · exact Or.inl hm
      · exact Or.inr ⟨e, Or.inl rfl, he⟩
      · exact Or.inr ⟨x, Or.inr hx, hcx⟩
    · rintro (hm | ⟨x, (rfl | hx), hcx⟩)
      · exact Or.inl (Or.inl hm)
      · exact Or.inl (Or.inr hcx)
      · exact Or.inr ⟨x, hx, hcx⟩

end ApplySomeLemmas

/-- C6: a `MessageSent`, `MessageReceived`, `Closed` or `Notified`
event whose id has no record leaves the whole map unchanged, and the
map (built by the collector from empty) contains an entry for an id iff
a `Created` event for that id has been processed. -/
theorem unknown_id_events (limit : Nat) :
    (∀ (m : StatsMap) (e : StatsEvent),
      (∀ id s l ty tn tsz, e ≠ .Created id s l ty tn tsz) →
      lookupStats m (eventId e) = none →
      applyEvent limit m e = m)
    ∧ ∀ (evs : List StatsEvent) (id : Nat),
      ((lookupStats (applyEvents limit [] evs) id).isSome
        ↔ ∃ e ∈ evs, createdFor id e = true) := by
  constructor
  · intro m e hnc h
    cases e with
    | Created i s l ty tn tsz => exact absurd rfl (hnc i s l ty tn tsz)
    | MessageSent i log ts => exact updateStats_of_absent m i _ h
    | MessageReceived i ts => exact updateStats_of_absent m i _ h
    | Closed i => exact updateStats_of_absent m i _ h
    | Notified i => exact updateStats_of_absent m i _ h
  · intro evs id
    rw [lookupStats_applyEvents_isSome]
    simp [lookupStats]

/-- C6 witness: a `Closed` event for the unknown id 7 leaves a concrete
one-record map unchanged. -/
theorem unknown_id_events_witness :
    applyEvent 50 [(0, ChannelStats.new 0 ['s'] none .Unbounded ['T'] 4 0)]
        (.Closed 7)
      = [(0, ChannelStats.new 0 ['s'] none .Unbounded ['T'] 4 0)] :=
  (unknown_id_events 50).1
    [(0, ChannelStats.new 0 ['s'] none .Unbounded ['T'] 4 0)]
    (.Closed 7) (by intro id s l ty tn tsz; simp) (by decide)

/-- C10: `MessageSent` for a known id can change only `sent_count`,
`state` and `sent_logs` — `received_count`, `received_logs` and all the
identity/type fields are unchanged; symmetrically `MessageReceived` can
change only `received_count`, `state` and `received_logs`; and both
events leave every other record in the map untouched. -/
theorem message_event_frame (limit : Nat) (m : StatsMap) (id : Nat)
    (cs : ChannelStats) (log : Option Str) (ts : Nat)
    (h : lookupStats m id = some cs) :
    (∃ cs', lookupStats (applyEvent limit m (.MessageSent id log ts)) id
        = some cs'
      ∧ cs'.received_count = cs.received_count
      ∧ cs'.received_logs = cs.received_logs
      ∧ cs'.id = cs.id ∧ cs'.source = cs.source ∧ cs'.label = cs.label
      ∧ cs'.channel_type = cs.channel_type
      ∧ cs'.type_name = cs.type_name
      ∧ cs'.type_size = cs.type_size ∧ cs'.iter = cs.iter)
    ∧ (∃ cs', lookupStats (applyEvent limit m (.MessageReceived id ts)) id
        = some cs'
      ∧ cs'.sent_count = cs.sent_count
      ∧ cs'.sent_logs = cs.sent_logs
      ∧ cs'.id = cs.id ∧ cs'.source = cs.source ∧ cs'.label = cs.label
      ∧ cs'.channel_type = cs.channel_type
      ∧ cs'.type_name = cs.type_name
      ∧ cs'.type_size = cs.type_size ∧ cs'.iter = cs.iter)
    ∧ (∀ j, j ≠ id →
        lookupStats (applyEvent limit m (.MessageSent id log ts)) j
          = lookupStats m j
        ∧ lookupStats (applyEvent limit m (.MessageReceived id ts)) j
          = lookupStats m j) := by
  refine ⟨⟨handleSent limit log ts cs, ?_, ?_⟩,
    ⟨handleReceived limit ts cs, ?_, ?_⟩, fun j hj => ⟨?_, ?_⟩⟩
  · simp [applyEvent, lookupStats_updateStats, h]
  · simp [handleSent_spec]
  · simp [applyEvent, lookupStats_updateStats, h]
  · simp [handleReceived_spec]
  · exact lookupStats_applyEvent_ne limit m _ j (fun hc => hj hc.symm)
  · exact lookupStats_applyEvent_ne limit m _ j (fun hc => hj hc.symm)

/-- C10 witness: the frame condition applied to a concrete one-record
map. -/
theorem message_event_frame_witness :
    ∃ cs', lookupStats
        (applyEvent 50 [(3, ChannelStats.new 3 ['s'] none .Unbounded ['T'] 8 0)]
          (.MessageSent 3 none 1)) 3 = some cs'
      ∧ cs'.received_count = 0
      ∧ cs'.received_logs = []
      ∧ cs'.id = 3 ∧ cs'.source = ['s'] ∧ cs'.label = none
      ∧ cs'.channel_type = .Unbounded
      ∧ cs'.type_name = ['T']
      ∧ cs'.type_size = 8 ∧ cs'.iter = 0 :=
  (message_event_frame 50
    [(3, ChannelStats.new 3 ['s'] none .Unbounded ['T'] 8 0)] 3
    (ChannelStats.new 3 ['s'] none .Unbounded ['T'] 8 0) none 1 (by decide)).1

section DecimalLemmas

lemma isDigit_digitChar (d : Nat) : isDigit (digitChar d) = true := by
  unfold digitChar
  split <;> decide

lemma digVal_digitChar (d : Nat) (h : d < 10) : digVal (digitChar d) = d := by
  interval_cases d <;> decide

lemma decimalAux_all (fuel : Nat) : ∀ n, (decimalAux fuel n).all isDigit = true := by
  induction fuel with
  | zero => intro n; simp [decimalAux]
  | succ fuel ih =>
    intro n
    by_cases hn : n = 0
    · simp [decimalAux, hn]
    · simp [decimalAux, hn, List.all_append, ih, isDigit_digitChar]

lemma decimalAux_ne_nil (fuel n : Nat) (h : 0 < n) (hf : n ≤ fuel) :
    decimalAux fuel n ≠ [] := by
  cases fuel with
  | zero => omega
  | succ fuel =>
    have hn : ¬ n = 0 := by omega
    simp [decimalAux, hn]

lemma foldl_decimalAux (fuel : Nat) : ∀ n a, n ≤ fuel →
    (decimalAux fuel n).foldl (fun acc c => 10 * acc + digVal c) a
      = a * 10 ^ (decimalAux fuel n).length + n := by
  induction fuel with
  | zero =>
    intro n a h
    interval_cases n
    simp [decimalAux]
  | succ fuel ih =>
    intro n a h
    by_cases hn : n = 0
    · subst hn
      simp [decimalAux]
    · simp only [decimalAux, if_neg hn]
      rw [List.foldl_append]
      have hdiv : n / 10 ≤ fuel := by
        have := Nat.div_lt_self (Nat.pos_of_ne_zero hn) (by norm_num : 1 < 10)
        omega
      rw [ih (n / 10) a hdiv]
      simp only [List.foldl_cons, List.foldl_nil, List.length_append,
        List.length_cons, List.length_nil]
      rw [digVal_digitChar _ (Nat.mod_lt n (by norm_num))]
      have hsplit : 10 * (a * 10 ^ (decimalAux fuel (n / 10)).length + n / 10)
            + n % 10
          = a * (10 ^ (decimalAux fuel (n / 10)).length * 10)
            + (10 * (n / 10) + n % 10) := by ring
      rw [hsplit, Nat.div_add_mod, ← pow_succ]

lemma parseDigits_natDecimal (n : Nat) :
    parseDigits (natDecimal n) = some n := by
  by_cases hn : n = 0
  · subst hn
    decide
  · unfold natDecimal
    rw [if_neg hn]
    unfold parseDigits
    rw [if_pos ⟨decimalAux_ne_nil n n (Nat.pos_of_ne_zero hn) le_rfl,
      decimalAux_all n n⟩]
    rw [foldl_decimalAux n n 0 le_rfl]
    simp

lemma natDecimal_all (n : Nat) : (natDecimal n).all isDigit = true := by
  by_cases hn : n = 0
  · subst hn; decide
  · unfold natDecimal
    rw [if_neg hn]
    exact decimalAux_all n n

lemma natDecimal_ne_nil (n : Nat) : natDecimal n ≠ [] := by
  by_cases hn : n = 0
  · subst hn; decide
  · unfold natDecimal
    rw [if_neg hn]
    exact decimalAux_ne_nil n n (Nat.pos_of_ne_zero hn) le_rfl

lemma parseU64_natDecimal (n : Nat) (h : n < 2 ^ 64) :
    parseU64 (natDecimal n) = some n := by
  have hhead : ¬ (natDecimal n).head? = some '+' := by
    cases hnd : natDecimal n with
    | nil => exact absurd hnd (natDecimal_ne_nil n)
    | cons c t =>
      have hall := natDecimal_all n
      rw [hnd] at hall
      simp only [List.all_cons, Bool.and_eq_true] at hall
      simp only [List.head?, Option.some.injEq]
      intro hc
      subst hc
      exact absurd hall.1 (by decide)
  unfold parseU64
  simp only [if_neg hhead, parseDigits_natDecimal]
  simp
  omega

end DecimalLemmas

/-- C8: for every `ChannelType` representable in the source (`Bounded`
capacities are `usize`, hence below `2^64`), deserializing its
serialized form (`"bounded[N]"`, `"unbounded"`, `"oneshot"`) yields the
value back. -/
theorem channel_type_roundtrip (t : ChannelType)
    (h : ∀ c, t = .Bounded c → c < 2 ^ 64) :
    deserializeChannelType (serializeChannelType t) = some t := by
  cases t with
  | Unbounded => decide
  | Oneshot => decide
  | Bounded c =>
    have hc : c < 2 ^ 64 := h c rfl
    have hlen : 1 ≤ (natDecimal c).length :=
      List.length_pos.mpr (natDecimal_ne_nil c)
    unfold serializeChannelType deserializeChannelType
    have h1 : ¬ ("bounded[".data ++ natDecimal c ++ "]".data
        = "unbounded".data) := by
      intro heq
      have h0 := congrArg List.head? heq
      simp at h0
    have h2 : ¬ ("bounded[".data ++ natDecimal c ++ "]".data
        = "oneshot".data) := by
      intro heq
      have h0 := congrArg List.head? heq
      simp at h0
    rw [if_neg h1, if_neg h2]
    have h3 : stripPre "bounded[".data
        ("bounded[".data ++ natDecimal c ++ "]".data)
        = some (natDecimal c ++ "]".data) := by
      unfold stripPre
      rw [List.append_assoc, List.take_left, List.drop_left, if_pos rfl]
    rw [h3]
    have h4 : stripSuf "]".data (natDecimal c ++ "]".data)
        = some (natDecimal c) := by
      unfold stripSuf
      have hlen2 : (natDecimal c ++ "]".data).length
          = (natDecimal c).length + 1 := by
        simp [List.length_append]
      have hd : (natDecimal c ++ "]".data).length - ("]".data).length
          = (natDecimal c).length := by
        simp [hlen2]
      rw [hd]
      rw [List.drop_left, List.take_left,
        if_pos ⟨by simp [hlen2], rfl⟩]
    simp only [h4, parseU64_natDecimal c hc]

/-- C8 witness: the round trip evaluated on `Bounded 10`, `Unbounded`
and `Oneshot`. -/
theorem channel_type_roundtrip_witness :
    deserializeChannelType (serializeChannelType (.Bounded 10))
        = some (.Bounded 10)
    ∧ deserializeChannelType (serializeChannelType .Unbounded)
        = some .Unbounded
    ∧ deserializeChannelType (serializeChannelType .Oneshot)
        = some .Oneshot :=
  ⟨channel_type_roundtrip (.Bounded 10)
      (fun c hc => by cases hc; decide),
    channel_type_roundtrip .Unbounded (fun c hc => by cases hc),
    channel_type_roundtrip .Oneshot (fun c hc => by cases hc)⟩

section LabelLemmas

lemma rfindChar_eq_none (c : Char) (s : Str) (h : c ∉ s) :
    rfindChar c s = none := by
  induction s with
  | nil => rfl
  | cons x xs ih =>
    simp only [List.mem_cons, not_or] at h
    have hxc : ¬ x = c := fun hc => h.1 hc.symm
    simp [rfindChar, ih h.2, hxc]

lemma rfindChar_append_last (p line : Str) (hl : ':' ∉ line) :
    rfindChar ':' (p ++ ':' :: line) = some p.length := by
  induction p with
  | nil =>
    simp [rfindChar, rfindChar_eq_none ':' line hl]
  | cons x xs ih =>
    simp [rfindChar, ih]

lemma resolve_label_iter (s : Str) (pr : Option Str) (j : Nat) :
    resolve_label s pr j
      = resolve_label s pr 0
        ++ (if j > 0 then '-' :: natDecimal (j + 1) else []) := by
  unfold resolve_label
  by_cases hj : j > 0 <;> simp [hj]

lemma resolve_label_provided (s l : Str) :
    resolve_label s (some l) 0 = l := rfl

lemma resolve_label_base (p line : Str) (hl : ':' ∉ line) :
    resolve_label (p ++ ':' :: line) none 0
      = extract_filename p ++ ':' :: line := by
  unfold resolve_label
  rw [rfindChar_append_last p line hl]
  have htake : (p ++ ':' :: line).take p.length = p := List.take_left p _
  have hdrop : (p ++ ':' :: line).drop (p.length + 1) = line := by
    have hre : p ++ ':' :: line = (p ++ [':']) ++ line := by simp
    have hlen : (p ++ [':']).length = p.length + 1 := by simp
    rw [hre, ← hlen, List.drop_left]
  simp [htake, hdrop]

lemma countSource_insertStats_fresh (m : StatsMap) (j : Nat)
    (v : ChannelStats) (s : Str) (h : lookupStats m j = none) :
    countSource (insertStats m j v) s
      = countSource m s + (if v.source == s then 1 else 0) := by
  rw [insertStats_of_fresh m j v h, countSource_append]
  simp [countSource, valuesOf, List.countP_cons]

lemma created_run (limit : Nat) (s : Str) (ty : ChannelType) (tn : Str)
    (tsz : Nat) :
    ∀ (ids : List Nat) (m : StatsMap) (c : Nat),
      ids.Nodup → (∀ i ∈ ids, lookupStats m i = none) →
      countSource m s = c →
      ∀ (j : Nat) (hj : j < ids.length),
        lookupStats
          (applyEvents limit m
            (ids.map (fun i => .Created i s none ty tn tsz)))
          (ids.get ⟨j, hj⟩)
          = some (ChannelStats.new (ids.get ⟨j, hj⟩) s none ty tn tsz
              (c + j)) := by
  intro ids
  induction ids with
  | nil =>
    intro m c _ _ _ j hj
    simp at hj
  | cons i rest ih =>
    intro m c hnd hfresh hcount j hj
    have hnd' := List.nodup_cons.mp hnd
    have hmi : lookupStats m i = none := hfresh i (by simp)
    have happly : applyEvent limit m (.Created i s none ty tn tsz)
        = insertStats m i (ChannelStats.new i s none ty tn tsz c) := by
      show insertStats m i (ChannelStats.new i s none ty tn tsz
        ((valuesOf m).countP (fun cs => cs.source == s))) = _
      rw [show (valuesOf m).countP (fun cs => cs.source == s) = c from hcount]
    have hstep : applyEvents limit m
        ((i :: rest).map (fun x => StatsEvent.Created x s none ty tn tsz))
        = applyEvents limit
            (insertStats m i (ChannelStats.new i s none ty tn tsz c))
            (rest.map (fun x => StatsEvent.Created x s none ty tn tsz)) := by
      show applyEvents limit
        (applyEvent limit m (.Created i s none ty tn tsz)) _ = _
      rw [happly]
    cases j with
    | zero =>
      rw [hstep, show (i :: rest).get ⟨0, hj⟩ = i from rfl]
      have hne : ∀ e ∈ rest.map (fun x => StatsEvent.Created x s none ty tn tsz),
          eventId e ≠ i := by
        intro e he
        rw [List.mem_map] at he
        obtain ⟨x, hx, rfl⟩ := he
        simp only [eventId]
        intro hxi
        exact hnd'.1 (hxi ▸ hx)
      rw [lookupStats_applyEvents_ne limit
        (rest.map (fun x => StatsEvent.Created x s none ty tn tsz))
        (insertStats m i (ChannelStats.new i s none ty tn tsz c)) i hne,
        lookupStats_insertStats]
      simp
    | succ j' =>
      rw [hstep]
      have hfresh' : ∀ r ∈ rest,
          lookupStats (insertStats m i (ChannelStats.new i s none ty tn tsz c)) r
            = none := by
        intro r hr
        rw [lookupStats_insertStats]
        have hri : ¬ r = i := fun hc => hnd'.1 (hc ▸ hr)
        rw [if_neg hri]
        exact hfresh r (by simp [hr])
      have hcount' : countSource
          (insertStats m i (ChannelStats.new i s none ty tn tsz c)) s
          = c + 1 := by
        rw [countSource_insertStats_fresh m i _ s hmi, hcount]
        simp [ChannelStats.new]
      have hj' : j' < rest.length := by
        simp only [List.length_cons] at hj
        omega
      have := ih (insertStats m i (ChannelStats.new i s none ty tn tsz c))
        (c + 1) hnd'.2 hfresh' hcount' j' hj'
      rw [show (i :: rest).get ⟨j' + 1, hj⟩ = rest.get ⟨j', hj'⟩ from rfl]
      rw [this]
      have harith : c + 1 + j' = c + (j' + 1) := by omega
      rw [harith]

end LabelLemmas

/-- C4: a user label is used verbatim as the base; for a source
`path ++ ":" ++ line` the base is `extract_filename path ++ ":" ++
line`, and `extract_filename` of a slash-joined path keeps exactly the
last two components `parent/filename`; a positive `iter` appends
`"-{iter+1}"`; and `k` channels created at the same unlabeled source
(with fresh distinct ids, starting from a map with no record of that
source) resolve in creation order to `base, base-2, …, base-k`. -/
theorem label_resolution :
    (∀ (s l : Str) (iter : Nat),
      resolve_label s (some l) iter
        = l ++ (if iter > 0 then '-' :: natDecimal (iter + 1) else []))
    ∧ (∀ (p line : Str), ':' ∉ line → ∀ (iter : Nat),
      resolve_label (p ++ ':' :: line) none iter
        = (extract_filename p ++ ':' :: line)
          ++ (if iter > 0 then '-' :: natDecimal (iter + 1) else []))
    ∧ (∀ (ds : List Str) (parent fn : Str),
        (∀ l ∈ ds, '/' ∉ l) → '/' ∉ parent → '/' ∉ fn →
        extract_filename (['/'].intercalate (ds ++ [parent, fn]))
          = parent ++ '/' :: fn)
    ∧ (∀ (limit : Nat) (m : StatsMap) (s : Str) (ty : ChannelType)
        (tn : Str) (tsz : Nat) (ids : List Nat),
        ids.Nodup → (∀ i ∈ ids, lookupStats m i = none) →
        countSource m s = 0 →
        ∀ (j : Nat) (hj : j < ids.length),
          (lookupStats
            (applyEvents limit m
              (ids.map (fun i => .Created i s none ty tn tsz)))
            (ids.get ⟨j, hj⟩)).map
            (fun cs => resolve_label cs.source cs.label cs.iter)
            = some (resolve_label s none 0
                ++ (if j > 0 then '-' :: natDecimal (j + 1) else []))) := by
  refine ⟨?_, ?_, ?_, ?_⟩
  · intro s l iter
    rw [resolve_label_iter, resolve_label_provided]
  · intro p line hl iter
    rw [resolve_label_iter, resolve_label_base p line hl]
  · intro ds parent fn hds hp hf
    have hsplit : (['/'].intercalate (ds ++ [parent, fn])).splitOn '/'
        = ds ++ [parent, fn] := by
      apply List.splitOn_intercalate
      · intro l hl
        rcases List.mem_append.mp hl with h | h
        · exact hds l h
        · simp only [List.mem_cons, List.not_mem_nil, or_false,
            List.mem_singleton] at h
          rcases h with rfl | rfl
          · exact hp
          · exact hf
      · simp
    unfold extract_filename
    rw [hsplit]
    have hlen : (ds ++ [parent, fn]).length = ds.length + 2 := by simp
    rw [if_pos (by omega)]
    have h2 : (ds ++ [parent, fn]).length - 2 = ds.length := by omega
    have h1 : (ds ++ [parent, fn]).length - 1 = ds.length + 1 := by omega
    rw [h1, h2]
    rw [List.getD_append_right ds [parent, fn] [] ds.length le_rfl,
      List.getD_append_right ds [parent, fn] [] (ds.length + 1) (by omega)]
    have e2 : ds.length - ds.length = 0 := by omega
    have e1 : ds.length + 1 - ds.length = 1 := by omega
    rw [e2, e1]
    rfl
  · intro limit m s ty tn tsz ids hnd hfresh hcount j hj
    rw [created_run limit s ty tn tsz ids m 0 hnd hfresh hcount j hj]
    show some (resolve_label s none (0 + j)) = _
    rw [show 0 + j = j by omega, resolve_label_iter]

/-- C4 witness: two channels created at the unlabeled source
`"a/b.rs:7"`; the second resolves to the base label with suffix
`"-2"`. -/
theorem label_resolution_witness :
    (lookupStats
      (applyEvents 50 []
        ([5, 9].map (fun i => StatsEvent.Created i "a/b.rs:7".data none
          .Unbounded ['T'] 1)))
      ([5, 9].get ⟨1, by decide⟩)).map
      (fun cs => resolve_label cs.source cs.label cs.iter)
      = some (resolve_label "a/b.rs:7".data none 0 ++ '-' :: natDecimal 2) :=
  label_resolution.2.2.2 50 [] "a/b.rs:7".data .Unbounded ['T'] 1 [5, 9]
    (by decide) (by intro i hi; rfl) (by decide) 1 (by decide)

section OrderingLemmas

lemma then_ne_gt (o p : Ordering) :
    (o.then p ≠ .gt) ↔ o = .lt ∨ (o = .eq ∧ p ≠ .gt) := by
  cases o <;> simp [Ordering.then]

lemma then_eq_lt (o p : Ordering) :
    (o.then p = .lt) ↔ o = .lt ∨ (o = .eq ∧ p = .lt) := by
  cases o <;> simp [Ordering.then]

lemma then_eq_eq (o p : Ordering) :
    (o.then p = .eq) ↔ o = .eq ∧ p = .eq := by
  cases o <;> simp [Ordering.then]

lemma then_swap (o p : Ordering) :
    (o.then p).swap = o.swap.then p.swap := by
  cases o <;> simp [Ordering.then, Ordering.swap]

lemma natCompare_swap (i j : Nat) : (compare i j).swap = compare j i := by
  rcases Nat.lt_trichotomy i j with h | h | h
  · rw [Nat.compare_eq_lt.mpr h, Nat.compare_eq_gt.mpr h]
    rfl
  · subst h
    rw [Nat.compare_eq_eq.mpr rfl]
    rfl
  · rw [Nat.compare_eq_gt.mpr h, Nat.compare_eq_lt.mpr h]
    rfl

lemma charCmp_eq_eq (x y : Char) : charCmp x y = .eq ↔ x = y := by
  unfold charCmp
  rw [Nat.compare_eq_eq]
  constructor
  · intro h
    exact Char.ext (by
      have : x.val.toNat = y.val.toNat := h
      exact UInt32.toNat.inj this)
  · intro h
    rw [h]

lemma strCmp_eq_eq (a : Str) : ∀ b, strCmp a b = .eq ↔ a = b := by
  induction a with
  | nil =>
    intro b
    cases b <;> simp [strCmp]
  | cons x xs ih =>
    intro b
    cases b with
    | nil => simp [strCmp]
    | cons y ys =>
      simp only [strCmp, then_eq_eq, charCmp_eq_eq, ih, List.cons.injEq]

lemma strCmp_swap (a : Str) : ∀ b, (strCmp a b).swap = strCmp b a := by
  induction a with
  | nil =>
    intro b
    cases b <;> rfl
  | cons x xs ih =>
    intro b
    cases b with
    | nil => rfl
    | cons y ys =>
      simp only [strCmp, then_swap, ih]
      unfold charCmp
      rw [natCompare_swap]

lemma strCmp_lt_trans (a : Str) : ∀ b c, strCmp a b = .lt →
    strCmp b c = .lt → strCmp a c = .lt := by
  induction a with
  | nil =>
    intro b c h1 h2
    cases b with
    | nil => simp [strCmp] at h1
    | cons y ys =>
      cases c with
      | nil => simp [strCmp] at h2
      | cons z zs => simp [strCmp]
  | cons x xs ih =>
    intro b c h1 h2
    cases b with
    | nil => simp [strCmp] at h1
    | cons y ys =>
      cases c with
      | nil => simp [strCmp] at h2
      | cons z zs =>
        rw [strCmp, then_eq_lt] at h1 h2 ⊢
        unfold charCmp at h1 h2 ⊢
        rcases h1 with h1 | ⟨h1e, h1r⟩ <;> rcases h2 with h2 | ⟨h2e, h2r⟩
        · exact Or.inl (Nat.compare_eq_lt.mpr
            (lt_trans (Nat.compare_eq_lt.mp h1) (Nat.compare_eq_lt.mp h2)))
        · rw [Nat.compare_eq_eq] at h2e
          exact Or.inl (Nat.compare_eq_lt.mpr (h2e ▸ Nat.compare_eq_lt.mp h1))
        · rw [Nat.compare_eq_eq] at h1e
          exact Or.inl (Nat.compare_eq_lt.mpr (h1e ▸ Nat.compare_eq_lt.mp h2))
        · rw [Nat.compare_eq_eq] at h1e h2e
          exact Or.inr ⟨Nat.compare_eq_eq.mpr (h1e.trans h2e),
            ih ys zs h1r h2r⟩

lemma lexOrd_ne_gt (x y : Str) (i j : Nat) :
    ((strCmp x y).then (compare i j) ≠ .gt)
      ↔ (strCmp x y = .lt ∨ (x = y ∧ i ≤ j)) := by
  rw [then_ne_gt, strCmp_eq_eq]
  have hnat : compare i j ≠ .gt ↔ i ≤ j := by
    rw [Ne, Nat.compare_eq_gt]
    omega
  rw [hnat]

lemma lexOrd_trans {x y z : Str} {i j k : Nat}
    (h1 : strCmp x y = .lt ∨ (x = y ∧ i ≤ j))
    (h2 : strCmp y z = .lt ∨ (y = z ∧ j ≤ k)) :
    strCmp x z = .lt ∨ (x = z ∧ i ≤ k) := by
  rcases h1 with h1 | ⟨hxy, hij⟩
  · rcases h2 with h2 | ⟨hyz, _⟩
    · exact Or.inl (strCmp_lt_trans x y z h1 h2)
    · exact Or.inl (hyz ▸ h1)
  · rcases h2 with h2 | ⟨hyz, hjk⟩
    · exact Or.inl (hxy ▸ h2)
    · exact Or.inr ⟨hxy.trans hyz, le_trans hij hjk⟩

lemma statsCmp_swap (a b : ChannelStats) :
    (compare_channel_stats a b).swap = compare_channel_stats b a := by
  unfold compare_channel_stats
  cases ha : a.label <;> cases hb : b.label
  · rw [then_swap, strCmp_swap, natCompare_swap]
  · rfl
  · rfl
  · rw [then_swap, strCmp_swap, natCompare_swap]

lemma statsLe_trans (a b c : ChannelStats) (h1 : statsLe a b = true)
    (h2 : statsLe b c = true) : statsLe a c = true := by
  simp only [statsLe, decide_eq_true_eq] at h1 h2 ⊢
  unfold compare_channel_stats at h1 h2 ⊢
  obtain ⟨_, asrc, alab, _, _, _, _, _, _, _, _, ait⟩ := a
  obtain ⟨_, bsrc, blab, _, _, _, _, _, _, _, _, bit⟩ := b
  obtain ⟨_, csrc, clab, _, _, _, _, _, _, _, _, cit⟩ := c
  dsimp only at h1 h2 ⊢
  cases alab <;> cases blab <;> cases clab <;> dsimp only at h1 h2 ⊢
  · rw [lexOrd_ne_gt] at h1 h2 ⊢
    exact lexOrd_trans h1 h2
  · exact absurd rfl h2
  · exact absurd rfl h1
  · exact absurd rfl h1
  · simp
  · exact absurd rfl h2
  · simp
  · rw [lexOrd_ne_gt] at h1 h2 ⊢
    exact lexOrd_trans h1 h2

lemma statsLe_total (a b : ChannelStats) :
    (statsLe a b || statsLe b a) = true := by
  simp only [statsLe, Bool.or_eq_true, decide_eq_true_eq]
  by_cases h : compare_channel_stats a b = .gt
  · right
    rw [← statsCmp_swap a b, h]
    simp [Ordering.swap]
  · exact Or.inl h

end OrderingLemmas

/-- The snapshot order as the spec states it: records with an explicit
user label precede records without; within the labeled group, order by
(label, then iter); within the unlabeled group, by (source, then iter),
strings compared lexicographically. -/
def specLe (a b : ChannelStats) : Prop :=
  match a.label, b.label with
  | some la, some lb => strCmp la lb = .lt ∨ (la = lb ∧ a.iter ≤ b.iter)
  | some _, none => True
  | none, some _ => False
  | none, none =>
    strCmp a.source b.source = .lt
    ∨ (a.source = b.source ∧ a.iter ≤ b.iter)

lemma statsLe_imp_specLe (a b : ChannelStats)
    (h : statsLe a b = true) : specLe a b := by
  simp only [statsLe, decide_eq_true_eq] at h
  unfold compare_channel_stats at h
  unfold specLe
  obtain ⟨_, asrc, alab, _, _, _, _, _, _, _, _, ait⟩ := a
  obtain ⟨_, bsrc, blab, _, _, _, _, _, _, _, _, bit⟩ := b
  dsimp only at h ⊢
  cases alab <;> cases blab <;> dsimp only at h ⊢
  · rw [lexOrd_ne_gt] at h
    exact h
  · exact absurd rfl h
  · rw [lexOrd_ne_gt] at h
    exact h

/-- C7: the sorted stats view is a permutation of the records in which
every record with an explicit user label precedes every record without
one; within the labeled group records are ordered by (label, then
iter), and within the unlabeled group by (source, then iter) — i.e. the
output is pairwise ordered by `specLe`. -/
theorem snapshot_order (l : List ChannelStats) :
    (sortChannelStats l).Perm l
    ∧ (sortChannelStats l).Pairwise specLe := by
  constructor
  · exact List.mergeSort_perm l statsLe
  · exact (List.sorted_mergeSort statsLe_trans statsLe_total l).imp
      (fun h => statsLe_imp_specLe _ _ h)

section LogSortLemmas

lemma logDesc_trans (a b c : LogEntry) (h1 : logDesc a b = true)
    (h2 : logDesc b c = true) : logDesc a c = true := by
  simp only [logDesc, decide_eq_true_eq] at h1 h2 ⊢
  omega

lemma logDesc_total (a b : LogEntry) :
    (logDesc a b || logDesc b a) = true := by
  simp only [logDesc, Bool.or_eq_true, decide_eq_true_eq]
  omega

end LogSortLemmas

/-- C9: `get_channel_logs` returns `none` iff the id string does not
parse as `u64` or no record with that id exists; on a hit the result
carries the requested id string and the channel's log queues sorted by
index descending (each output list is a permutation of the stored
queue, pairwise non-increasing by index); the HTTP layer (modelled from
the spec, `http_api.rs` being absent from the sources) surfaces the
`none` case as 404. -/
theorem logs_lookup (s : Str) (m : StatsMap) :
    (get_channel_logs s m = none ↔
      ∀ n, parseU64 s = some n → lookupStats m n = none)
    ∧ (∀ r, get_channel_logs s m = some r →
        r.id = s
        ∧ r.sent_logs.Pairwise (fun a b => b.index ≤ a.index)
        ∧ r.received_logs.Pairwise (fun a b => b.index ≤ a.index)
        ∧ ∃ n cs, parseU64 s = some n ∧ lookupStats m n = some cs
            ∧ r.sent_logs.Perm cs.sent_logs
            ∧ r.received_logs.Perm cs.received_logs)
    ∧ (logsHttpStatus (get_channel_logs s m) = 404
        ↔ get_channel_logs s m = none) := by
  unfold get_channel_logs
  cases hp : parseU64 s with
  | none =>
    refine ⟨by simp, fun r hr => by simp at hr, by simp [logsHttpStatus]⟩
  | some n =>
    cases hl : lookupStats m n with
    | none =>
      refine ⟨by simp [hl], fun r hr => by simp [hl] at hr,
        by simp [hl, logsHttpStatus]⟩
    | some cs =>
      refine ⟨by simp [hl], ?_, by simp [hl, logsHttpStatus]⟩
      intro r hr
      simp only [hl, Option.some.injEq] at hr
      subst hr
      refine ⟨rfl, ?_, ?_, n, cs, rfl, hl, ?_, ?_⟩
      · exact (List.sorted_mergeSort logDesc_trans logDesc_total
          cs.sent_logs).imp
          (fun h => by simpa [logDesc] using h)
      · exact (List.sorted_mergeSort logDesc_trans logDesc_total
          cs.received_logs).imp
          (fun h => by simpa [logDesc] using h)
      · exact List.mergeSort_perm cs.sent_logs logDesc
      · exact List.mergeSort_perm cs.received_logs logDesc

/-- C9 witness: a one-record map whose channel 7 holds a single sent
log entry; the lookup succeeds and returns it. -/
theorem logs_lookup_witness :
    (ChannelLogs.mk ['7'] [⟨1, 0, none⟩] []).id = ['7']
    ∧ (ChannelLogs.mk ['7'] [⟨1, 0, none⟩] []).sent_logs.Pairwise
        (fun a b => b.index ≤ a.index)
    ∧ (ChannelLogs.mk ['7'] [⟨1, 0, none⟩] []).received_logs.Pairwise
        (fun a b => b.index ≤ a.index)
    ∧ ∃ n cs, parseU64 ['7'] = some n
        ∧ lookupStats
            [(7, { ChannelStats.new 7 ['s'] none .Unbounded ['T'] 1 0 with
              sent_logs := [⟨1, 0, none⟩] })] n = some cs
        ∧ (ChannelLogs.mk ['7'] [⟨1, 0, none⟩] []).sent_logs.Perm cs.sent_logs
        ∧ (ChannelLogs.mk ['7'] [⟨1, 0, none⟩] []).received_logs.Perm
            cs.received_logs :=
  (logs_lookup ['7']
    [(7, { ChannelStats.new 7 ['s'] none .Unbounded ['T'] 1 0 with
      sent_logs := [⟨1, 0, none⟩] })]).2.1
    (ChannelLogs.mk ['7'] [⟨1, 0, none⟩] [])
    (by
      unfold get_channel_logs
      rw [show parseU64 ['7'] = some 7 from by decide]
      dsimp only
      rw [show lookupStats
        [(7, { ChannelStats.new 7 ['s'] none .Unbounded ['T'] 1 0 with
          sent_logs := [⟨1, 0, none⟩] })] 7
        = some { ChannelStats.new 7 ['s'] none .Unbounded ['T'] 1 0 with
          sent_logs := [⟨1, 0, none⟩] } from by decide]
      dsimp only
      simp [List.mergeSort_singleton, List.mergeSort_nil, ChannelStats.new])

/-- Log-queue invariant relative to its counter: the queue holds at
most `max limit 1` entries, no more than `count`, and its indices are
exactly the consecutive sequence numbers `count − len + 1, …, count`. -/
def goodLog (count limit : Nat) (logs : List LogEntry) : Prop :=
  logs.length ≤ max limit 1 ∧ logs.length ≤ count ∧
  logs.map LogEntry.index
    = List.range' (count - logs.length + 1) logs.length

/-- Per-record log invariant for both queues. -/
def goodStats (limit : Nat) (cs : ChannelStats) : Prop :=
  goodLog cs.sent_count limit cs.sent_logs
  ∧ goodLog cs.received_count limit cs.received_logs

section LogBoundLemmas

lemma goodLog_nil (limit : Nat) : goodLog 0 limit [] := by
  simp [goodLog]

lemma goodLog_push (count limit : Nat) (logs : List LogEntry) (ts : Nat)
    (msg : Option Str) (h : goodLog count limit logs) :
    goodLog (count + 1) limit (pushLog limit logs ⟨count + 1, ts, msg⟩) := by
  obtain ⟨hb, hc, hm⟩ := h
  unfold pushLog goodLog
  by_cases hge : logs.length ≥ limit
  · rw [if_pos hge]
    cases logs with
    | nil =>
      simp only [List.length_nil] at hb hc hm
      simp only [List.tail_nil, List.nil_append, List.length_cons,
        List.length_nil, List.map_cons, List.map_nil]
      refine ⟨by omega, by omega, ?_⟩
      have h1 : count + 1 - (0 + 1) + 1 = count + 1 := by omega
      rw [h1]
      rfl
    | cons x t =>
      simp only [List.length_cons] at hb hc hm ⊢
      simp only [List.tail_cons, List.length_append, List.length_cons,
        List.length_nil, List.map_append, List.map_cons, List.map_nil]
      refine ⟨by omega, by omega, ?_⟩
      have ha : count - (t.length + 1) + 1 = count - t.length := by omega
      rw [ha] at hm
      rw [List.range'_succ] at hm
      simp only [List.map_cons] at hm
      have hmt : t.map LogEntry.index
          = List.range' (count - t.length + 1) t.length :=
        (List.cons.injEq _ _ _ _).mp hm |>.2
      rw [hmt]
      have hcat : List.range' (count - t.length + 1) (t.length + 1)
          = List.range' (count - t.length + 1) t.length
            ++ [count - t.length + 1 + 1 * t.length] :=
        List.range'_concat _ _
      have he : count - t.length + 1 + 1 * t.length = count + 1 := by omega
      rw [he] at hcat
      have hstart : count + 1 - (t.length + 1) + 1 = count - t.length + 1 := by
        omega
      rw [hstart, hcat]
  · rw [if_neg hge]
    simp only [List.length_append, List.length_cons, List.length_nil,
      List.map_append, List.map_cons, List.map_nil]
    refine ⟨by omega, by omega, ?_⟩
    rw [hm]
    have hcat : List.range' (count - logs.length + 1) (logs.length + 1)
        = List.range' (count - logs.length + 1) logs.length
          ++ [count - logs.length + 1 + 1 * logs.length] :=
      List.range'_concat _ _
    have he : count - logs.length + 1 + 1 * logs.length = count + 1 := by
      omega
    rw [he] at hcat
    have hstart : count + 1 - (logs.length + 1) + 1
        = count - logs.length + 1 := by omega
    rw [hstart, hcat]

lemma goodStats_new (limit : Nat) (id : Nat) (s : Str) (l : Option Str)
    (ty : ChannelType) (tn : Str) (tsz iter : Nat) :
    goodStats limit (ChannelStats.new id s l ty tn tsz iter) :=
  ⟨goodLog_nil limit, goodLog_nil limit⟩

lemma goodStats_applyEvent (limit : Nat) (m : StatsMap) (e : StatsEvent)
    (hm : ∀ id cs, lookupStats m id = some cs → goodStats limit cs) :
    ∀ id cs, lookupStats (applyEvent limit m e) id = some cs →
      goodStats limit cs := by
  intro id cs hcs
  cases e with
  | Created i s l ty tn tsz =>
    rw [applyEvent, lookupStats_insertStats] at hcs
    by_cases hid : id = i
    · rw [if_pos hid] at hcs
      cases hcs
      exact goodStats_new limit i s l ty tn tsz _
    · rw [if_neg hid] at hcs
      exact hm id cs hcs
  | MessageSent i log ts =>
    rw [applyEvent, lookupStats_updateStats] at hcs
    by_cases hid : id = i
    · rw [if_pos hid] at hcs
      cases hcs0 : lookupStats m id with
      | none => rw [hcs0] at hcs; cases hcs
      | some cs0 =>
        rw [hcs0] at hcs
        have hcs1 : handleSent limit log ts cs0 = cs := by simpa using hcs
        subst hcs1
        obtain ⟨hg1, hg2⟩ := hm id cs0 hcs0
        rw [handleSent_spec]
        exact ⟨goodLog_push cs0.sent_count limit cs0.sent_logs ts log hg1,
          hg2⟩
    · rw [if_neg hid] at hcs
      exact hm id cs hcs
  | MessageReceived i ts =>
    rw [applyEvent, lookupStats_updateStats] at hcs
    by_cases hid : id = i
    · rw [if_pos hid] at hcs
      cases hcs0 : lookupStats m id with
      | none => rw [hcs0] at hcs; cases hcs
      | some cs0 =>
        rw [hcs0] at hcs
        have hcs1 : handleReceived limit ts cs0 = cs := by simpa using hcs
        subst hcs1
        obtain ⟨hg1, hg2⟩ := hm id cs0 hcs0
        rw [handleReceived_spec]
        exact ⟨hg1,
          goodLog_push cs0.received_count limit cs0.received_logs ts none hg2⟩
    · rw [if_neg hid] at hcs
      exact hm id cs hcs
  | Closed i =>
    rw [applyEvent, lookupStats_updateStats] at hcs
    by_cases hid : id = i
    · rw [if_pos hid] at hcs
      cases hcs0 : lookupStats m id with
      | none => rw [hcs0] at hcs; cases hcs
      | some cs0 =>
        rw [hcs0] at hcs
        have hcs1 : { cs0 with state := ChannelState.Closed } = cs := by
          simpa using hcs
        subst hcs1
        exact hm id cs0 hcs0
    · rw [if_neg hid] at hcs
      exact hm id cs hcs
  | Notified i =>
    rw [applyEvent, lookupStats_updateStats] at hcs
    by_cases hid : id = i
    · rw [if_pos hid] at hcs
      cases hcs0 : lookupStats m id with
      | none => rw [hcs0] at hcs; cases hcs
      | some cs0 =>
        rw [hcs0] at hcs
        have hcs1 : { cs0 with state := ChannelState.Notified } = cs := by
          simpa using hcs
        subst hcs1
        exact hm id cs0 hcs0
    · rw [if_neg hid] at hcs
      exact hm id cs hcs

lemma goodStats_applyEvents (limit : Nat) (evs : List StatsEvent) :
    ∀ (m : StatsMap),
      (∀ id cs, lookupStats m id = some cs → goodStats limit cs) →
      ∀ id cs, lookupStats (applyEvents limit m evs) id = some cs →
        goodStats limit cs := by
  induction evs with
  | nil => intro m hm; exact hm
  | cons e rest ih =>
    intro m hm id cs hcs
    exact ih (applyEvent limit m e)
      (goodStats_applyEvent limit m e hm) id cs hcs

end LogBoundLemmas

/-- C5 counterexample: with `CHANNELS_CONSOLE_LOG_LIMIT=0` the parsed
log limit is 0, yet after one `MessageSent` the channel's `sent_logs`
holds one entry — more than `LOG_LIMIT`. -/
theorem log_bound_limit_zero :
    getLogLimit (some ['0']) = 0
    ∧ (lookupStats
        (applyEvents (getLogLimit (some ['0'])) []
          [.Created 0 ['s'] none .Unbounded ['T'] 1,
            .MessageSent 0 none 0]) 0).map
        (fun cs => cs.sent_logs.length) = some 1 := by
  constructor <;> decide

/-- C5 (amended): in every state the collector reaches from the empty
map, each log queue holds at most `max(LOG_LIMIT, 1)` entries (hence at
most `LOG_LIMIT` whenever `LOG_LIMIT ≥ 1`; the bound is off by one only
for `LOG_LIMIT = 0`, where the code pops from an empty queue and then
pushes); the stored indices are exactly the consecutive 1-based
send/receive sequence numbers `count − len + 1, …, count`, strictly
increasing within the queue; and the default limit with no environment
override is 50. -/
theorem log_bound (limit : Nat) (evs : List StatsEvent) (id : Nat)
    (cs : ChannelStats)
    (h : lookupStats (applyEvents limit [] evs) id = some cs) :
    cs.sent_logs.length ≤ max limit 1
    ∧ cs.received_logs.length ≤ max limit 1
    ∧ (1 ≤ limit →
        cs.sent_logs.length ≤ limit ∧ cs.received_logs.length ≤ limit)
    ∧ cs.sent_logs.map LogEntry.index
        = List.range' (cs.sent_count - cs.sent_logs.length + 1)
            cs.sent_logs.length
    ∧ cs.received_logs.map LogEntry.index
        = List.range' (cs.received_count - cs.received_logs.length + 1)
            cs.received_logs.length
    ∧ (cs.sent_logs.map LogEntry.index).Pairwise (· < ·)
    ∧ (cs.received_logs.map LogEntry.index).Pairwise (· < ·)
    ∧ getLogLimit none = 50 := by
  have hg := goodStats_applyEvents limit evs []
    (fun i c hc => by cases hc) id cs h
  obtain ⟨⟨hb1, hc1, hm1⟩, hb2, hc2, hm2⟩ := hg
  refine ⟨hb1, hb2, fun hl => ⟨by omega, by omega⟩, hm1, hm2, ?_, ?_, rfl⟩
  · rw [hm1]
    exact List.pairwise_lt_range' _ _
  · rw [hm2]
    exact List.pairwise_lt_range' _ _

/-- C5 witness: the amended bound evaluated after a single send with
the default limit 50. -/
theorem log_bound_witness :
    (1 : Nat) ≤ max 50 1
    ∧ (0 : Nat) ≤ max 50 1
    ∧ ((1 : Nat) ≤ 50 → (1 : Nat) ≤ 50 ∧ (0 : Nat) ≤ 50)
    ∧ ([⟨1, 0, none⟩] : List LogEntry).map LogEntry.index = List.range' 1 1
    ∧ ([] : List LogEntry).map LogEntry.index = List.range' 1 0
    ∧ (([⟨1, 0, none⟩] : List LogEntry).map LogEntry.index).Pairwise (· < ·)
    ∧ (([] : List LogEntry).map LogEntry.index).Pairwise (· < ·)
    ∧ getLogLimit none = 50 :=
  log_bound 50
    [.Created 0 ['s'] none .Unbounded ['T'] 1, .MessageSent 0 none 0] 0
    { ChannelStats.new 0 ['s'] none .Unbounded ['T'] 1 0 with
      sent_count := 1, state := .Active, sent_logs := [⟨1, 0, none⟩] }
    (by decide)

end ChannelsConsole
